import Mathlib

/-!
# Verification of the Limbic-Flow cognitive pipeline

Shallow embedding of the algorithmic core of the Limbic-Flow repository:
the emotion engine (`core/emotion_engine.py`), the memory store
(`core/hippocampus/__init__.py`), the pathology chain
(`middleware/pathology/`), the articulation engine
(`core/articulation/motor_cortex.py`) and the amygdala stress/reward pass
(`core/amygdala/__init__.py`).

Numeric modelling: Python floats are modelled as real numbers where the code
uses transcendental functions (`exp`, `log`, `sqrt`), and as rationals where
the code only uses field arithmetic and comparisons.  Calls to
`random.random`/`random.uniform` are modelled by an explicit stream of base
draws in `[0,1)` consumed in call order.  A float division whose denominator
is zero yields NaN in Python; it is modelled as `Option.none`.
-/

namespace LimbicFlow

/-! ## Emotion engine (`core/emotion_engine.py`, class `EmotionEngine`) -/

/-- The five numeric fields of `EmotionEngine`: the PAD vector and the two
neurotransmitter levels.  The timestamp is factored out: `update` receives
the elapsed time `dt` directly. -/
structure EmotionState where
  pleasure : ℝ
  arousal : ℝ
  dominance : ℝ
  dopamine : ℝ
  cortisol : ℝ

/-- `self.half_life_pleasure = 3600`. -/
def halfLifePleasure : ℝ := 3600
/-- `self.half_life_arousal = 1800`. -/
def halfLifeArousal : ℝ := 1800
/-- `self.half_life_dominance = 2700`. -/
def halfLifeDominance : ℝ := 2700
/-- `self.half_life_dopamine = 300`. -/
def halfLifeDopamine : ℝ := 300
/-- `self.half_life_cortisol = 600`. -/
def halfLifeCortisol : ℝ := 600

/-- `math.exp(-math.log(2) * time_delta / half_life)`. -/
noncomputable def decayFactor (timeDelta halfLife : ℝ) : ℝ :=
  Real.exp (-Real.log 2 * timeDelta / halfLife)

/-- `EmotionEngine._apply_half_life_decay`: PAD axes decay toward 0,
dopamine toward 0.5, cortisol toward 0.3. -/
noncomputable def applyHalfLifeDecay (s : EmotionState) (timeDelta : ℝ) :
    EmotionState where
  pleasure := s.pleasure * decayFactor timeDelta halfLifePleasure
  arousal := s.arousal * decayFactor timeDelta halfLifeArousal
  dominance := s.dominance * decayFactor timeDelta halfLifeDominance
  dopamine := 0.5 + (s.dopamine - 0.5) * decayFactor timeDelta halfLifeDopamine
  cortisol := 0.3 + (s.cortisol - 0.3) * decayFactor timeDelta halfLifeCortisol

/-- `EmotionEngine._update_neurotransmitters`: dopamine rises with pleasure,
cortisol with `|arousal|`. -/
def updateNeurotransmitters (s : EmotionState) : EmotionState :=
  { s with
    dopamine := s.dopamine + s.pleasure * 0.1
    cortisol := s.cortisol + |s.arousal| * 0.1 }

/-- `max(-1.0, min(1.0, x))`. -/
noncomputable def clampPad (x : ℝ) : ℝ := max (-1) (min 1 x)

/-- `max(0.0, min(1.0, x))`. -/
noncomputable def clampUnit (x : ℝ) : ℝ := max 0 (min 1 x)

/-- `EmotionEngine._clamp_values`. -/
noncomputable def clampValues (s : EmotionState) : EmotionState where
  pleasure := clampPad s.pleasure
  arousal := clampPad s.arousal
  dominance := clampPad s.dominance
  dopamine := clampUnit s.dopamine
  cortisol := clampUnit s.cortisol

/-- `EmotionEngine.update`: decay over the elapsed time, add the stimulus
deltas to the PAD axes, apply the neurotransmitter coupling, clamp. -/
noncomputable def update (s : EmotionState) (timeDelta : ℝ)
    (inputPleasure inputArousal inputDominance : ℝ) : EmotionState :=
  let d := applyHalfLifeDecay s timeDelta
  let stimulated :=
    { d with
      pleasure := d.pleasure + inputPleasure
      arousal := d.arousal + inputArousal
      dominance := d.dominance + inputDominance }
  clampValues (updateNeurotransmitters stimulated)

/-! ## Amygdala stress/reward pass (`core/amygdala/__init__.py`,
`Amygdala.process`)

`process` reads the last (up to) five logged snapshots via
`get_state_history(limit=5)` (ordered by timestamp descending); the
snapshot list is passed here as an explicit argument.  Only the `arousal`
and `pleasure` fields of a history record are read.  The numeric domain is
ℚ: the method uses only field arithmetic and comparisons. -/

/-- The fields of a logged state record that `Amygdala.process` reads. -/
structure AmySnapshot where
  arousal : ℚ
  pleasure : ℚ

/-- The fields of the cognitive state that `Amygdala.process` reads and
writes. -/
structure AmyState where
  pleasure : ℚ
  arousal : ℚ
  dominance : ℚ
  dopamine : ℚ
  cortisol : ℚ
  environmentalPressure : ℚ

/-- The `cumulative_stress` accumulation loop of `Amygdala.process`:
`+0.1` for every history record with `arousal > 0.2` and
`pleasure < -0.2`. -/
def cumulativeStress (history : List AmySnapshot) : ℚ :=
  history.foldl
    (fun acc r => if 0.2 < r.arousal ∧ r.pleasure < -0.2 then acc + 0.1 else acc)
    0

/-- `Amygdala.process`: recompute cortisol from base 0.3 plus cumulative
stress, current anxiety and environmental pressure, and dopamine from base
0.5 plus the pleasure/dominance boosts; clamp both to `[0, 1]`. -/
def amygdalaProcess (history : List AmySnapshot) (s : AmyState) : AmyState :=
  let cum := cumulativeStress history
  let currentStress : ℚ := if 0.3 < s.arousal ∧ s.dominance < -0.2 then 0.2 else 0
  let dopamineBoost : ℚ :=
    (if 0.3 < s.pleasure then 0.2 else 0) + (if 0.3 < s.dominance then 0.1 else 0)
  { s with
    cortisol := min 1 (max 0 (0.3 + cum + currentStress + s.environmentalPressure))
    dopamine := min 1 (max 0 (0.5 + dopamineBoost)) }

/-! ## Pathology chain (`middleware/pathology/`)

The emotional-state dictionary handed to every policy is built by the
manager from the cognitive state; all its keys are always present, so it is
a plain structure here.  The numeric domain is ℚ (policies use only field
arithmetic and comparisons).  `np.random.random()` draws are modelled by an
explicit stream `u : ℕ → ℚ` consumed in call order.  A policy method that
raises is modelled as returning `Except.error`. -/

/-- The `emotional_state` dictionary built by `_build_emotional_state`. -/
structure EmoQ where
  pleasure : ℚ
  arousal : ℚ
  dominance : ℚ
  dopamine : ℚ
  cortisol : ℚ
  timestamp : ℚ

/-- A stored memory as seen by `DepressionPathology.distort_memories`:
only the optional `pad` dictionary is read or written; every other field
is copied verbatim. -/
structure MemQ where
  padPleasure : Option ℚ

/-- `DepressionPathology.should_apply`:
`cortisol > 0.4 or pleasure < -0.2`. -/
def depressionShouldApply (emo : EmoQ) : Bool :=
  decide (0.4 < emo.cortisol ∨ emo.pleasure < -0.2)

/-- `DepressionPathology._calculate_dynamic_severity`:
`min(1, base_severity + max(0, (cortisol - 0.4) * 1.0))`. -/
def calculateDynamicSeverity (baseSeverity : ℚ) (emo : EmoQ) : ℚ :=
  min 1 (baseSeverity + max 0 ((emo.cortisol - 0.4) * 1))

/-- The loop body of `DepressionPathology.distort_memories`, with the
severity already computed and `k` the number of random draws consumed so
far.  A memory whose pad pleasure (default 0) exceeds 0.2 consumes one
draw and is dropped when the draw is below `0.8 × severity`; every kept
memory with a pad has its pleasure multiplied by `1 - 0.8 × severity`. -/
def depressionDistortGo (severity : ℚ) (u : ℕ → ℚ) :
    List MemQ → ℕ → List MemQ
  | [], _ => []
  | m :: rest, k =>
    let memoryPleasure := m.padPleasure.getD 0
    if 0.2 < memoryPleasure then
      if u k < 0.8 * severity then
        depressionDistortGo severity u rest (k + 1)
      else
        ⟨m.padPleasure.map (· * (1 - 0.8 * severity))⟩ ::
          depressionDistortGo severity u rest (k + 1)
    else
      ⟨m.padPleasure.map (· * (1 - 0.8 * severity))⟩ ::
        depressionDistortGo severity u rest k

/-- `DepressionPathology.distort_memories` (file
`middleware/pathology/pathologies.py`): dynamic severity from the
emotional state, then the drop/scale loop. -/
def depressionDistortMemories (baseSeverity : ℚ) (memories : List MemQ)
    (emo : EmoQ) (u : ℕ → ℚ) : List MemQ :=
  if memories.isEmpty then memories
  else depressionDistortGo (calculateDynamicSeverity baseSeverity emo) u memories 0

/-- Scaling a single memory's stored pleasure by `1 - 0.8 × severity`
(applied to every memory that carries a pad).  Spec-side helper used to
state the decomposition of `depressionDistortGo`. -/
def scaleMem (severity : ℚ) (m : MemQ) : MemQ :=
  ⟨m.padPleasure.map (· * (1 - 0.8 * severity))⟩

/-- The drop pass of `DepressionPathology.distort_memories` in isolation:
same draw consumption, no scaling.  Spec-side helper used to state the
decomposition of `depressionDistortGo`. -/
def depressionDropPass (severity : ℚ) (u : ℕ → ℚ) :
    List MemQ → ℕ → List MemQ
  | [], _ => []
  | m :: rest, k =>
    if 0.2 < m.padPleasure.getD 0 then
      if u k < 0.8 * severity then
        depressionDropPass severity u rest (k + 1)
      else
        m :: depressionDropPass severity u rest (k + 1)
    else
      m :: depressionDropPass severity u rest k

/-- A pathology policy as consumed by the two chain drivers: the duck-typed
interface `should_apply` / `distort_query` / `distort_memories`.  The
memory and query-vector types are opaque to the drivers, hence parameters.
A raising method is an `Except.error` result. -/
structure Pathology (α β : Type) where
  shouldApply : EmoQ → Bool
  distortQuery : β → EmoQ → Except String β
  distortMemories : List α → EmoQ → Except String (List α)

/-- The slice of `CognitiveState` that the pathology chain reads and
writes. -/
structure PathoState (α β : Type) where
  emo : EmoQ
  queryVector : Option β
  memories : List α
  distorted : List α

/-- The `distorted_memories`-initialisation step shared by
`PathologyMiddlewareManager.process` and `PathologyBase.apply`: when
`distorted_memories` is empty and `memories` is not, copy `memories`. -/
def cloneIfNeeded (s : PathoState α β) : PathoState α β :=
  if s.distorted.isEmpty && !s.memories.isEmpty then
    { s with distorted := s.memories }
  else s

/-- `PathologyBase.apply`, as run under the manager's `try`/`except`: when
`should_apply` is false the state passes through; otherwise the clone step
runs, and `distort_memories` is called on a non-empty distorted list.  A
raising `distort_memories` leaves the state as it stood after the clone
step (the manager catches the exception and continues). -/
def applyPathology (p : Pathology α β) (s : PathoState α β) :
    PathoState α β :=
  if !p.shouldApply s.emo then s
  else
    let s₁ := cloneIfNeeded s
    if s₁.distorted.isEmpty then s₁
    else
      match p.distortMemories s₁.distorted s₁.emo with
      | .ok ms => { s₁ with distorted := ms }
      | .error _ => s₁

/-- The policy loop of `PathologyMiddlewareManager.process`. -/
def runPathologies (ps : List (Pathology α β)) (s : PathoState α β) :
    PathoState α β :=
  ps.foldl (fun t p => applyPathology p t) s

/-- `PathologyMiddlewareManager.process`: initial clone, then the policies
in registration order, each under `try`/`except`. -/
def managerProcess (ps : List (Pathology α β)) (s : PathoState α β) :
    PathoState α β :=
  runPathologies ps (cloneIfNeeded s)

/-- One iteration of the `PathologyMiddlewareManager.distort_query` loop:
on success the query vector is replaced, a raising policy leaves it
unchanged. -/
def queryStep (p : Pathology α β) (t : PathoState α β) : PathoState α β :=
  if p.shouldApply t.emo then
    match t.queryVector with
    | some v =>
      match p.distortQuery v t.emo with
      | .ok v' => { t with queryVector := some v' }
      | .error _ => t
    | none => t
  else t

/-- `PathologyMiddlewareManager.distort_query`: no-op when the state has no
query vector, otherwise the policy loop with per-policy exception
handling. -/
def managerDistortQuery (ps : List (Pathology α β)) (s : PathoState α β) :
    PathoState α β :=
  match s.queryVector with
  | none => s
  | some _ => ps.foldl (fun t p => queryStep p t) s

/-- `BasePathologyMiddleware.distort_memories` (file
`middleware/pathology/__init__.py`): the same policy loop but *without*
any exception handling — a raising policy propagates out of the chain. -/
def baseMiddlewareDistortMemories (ps : List (Pathology α β))
    (memories : List α) (emo : EmoQ) : Except String (List α) :=
  ps.foldlM
    (fun cur p =>
      if p.shouldApply emo then p.distortMemories cur emo else pure cur)
    memories

/-! ## Articulation engine (`core/articulation/motor_cortex.py`,
`MotorCortex`)

Text is a list of characters; Python `str.strip()` is modelled for ASCII
whitespace.  The numeric domain is ℚ.  Each `random.uniform(a, b)` call
is `a + (b − a) × u_k` for the next element `u_k` of an explicit draw
stream. -/

/-- The constructor parameters of `MotorCortex` (defaults
`60, 10, 50, 0.5, 1.5`). -/
structure MotorConfig where
  baseWpm : ℚ
  minSegmentLength : ℚ
  maxSegmentLength : ℚ
  hesitationBase : ℚ
  hesitationMultiplier : ℚ

/-- `MotorCortex(...)` with all defaults. -/
def defaultMotorConfig : MotorConfig := ⟨60, 10, 50, 0.5, 1.5⟩

/-- The `pad_state` dictionary handed to `articulate` (all five keys are
present when built by `MotorCortex.process`). -/
structure PadState where
  pleasure : ℚ
  arousal : ℚ
  dominance : ℚ
  dopamine : ℚ
  cortisol : ℚ

/-- An `ActionEvent` as produced by `articulate` (metadata, which is
observability-only, is not modelled). -/
inductive Action
  | typing (duration : ℚ)
  | message (content : List Char)
  | wait (duration : ℚ)
deriving DecidableEq

/-- The sentence-terminal characters of the split pattern `([。！？])`. -/
def isSentenceEnd (c : Char) : Bool :=
  c = '。' || c = '！' || c = '？'

/-- The characters for which Python `str.isspace()` is true — exactly the
set stripped by `str.strip()`: the ASCII whitespace and separator
controls U+0009–U+000D, U+001C–U+001F and U+0020, plus NEL (U+0085),
NBSP (U+00A0), Ogham space (U+1680), the typographic spaces
U+2000–U+200A, the line and paragraph separators U+2028/U+2029, and
U+202F, U+205F, U+3000. -/
def isPySpace (c : Char) : Bool :=
  c = '\t' || c = '\n' || c = '\x0B' || c = '\x0C' || c = '\r' ||
  c = '\x1C' || c = '\x1D' || c = '\x1E' || c = '\x1F' || c = ' ' ||
  c = '\u0085' || c = '\u00A0' || c = '\u1680' ||
  c = '\u2000' || c = '\u2001' || c = '\u2002' || c = '\u2003' ||
  c = '\u2004' || c = '\u2005' || c = '\u2006' || c = '\u2007' ||
  c = '\u2008' || c = '\u2009' || c = '\u200A' ||
  c = '\u2028' || c = '\u2029' || c = '\u202F' || c = '\u205F' ||
  c = '\u3000'

/-- Python `text.strip()` for the modelled whitespace set. -/
def stripChars (s : List Char) : List Char :=
  ((s.dropWhile isPySpace).reverse.dropWhile isPySpace).reverse

/-- `re.split(r'([。！？])', text)`: split at the sentence-terminal
characters, keeping each separator as its own element (empty fragments
included, as in Python). -/
def splitKeepSeps : List Char → List (List Char)
  | [] => [[]]
  | c :: cs =>
    if isSentenceEnd c then
      [] :: [c] :: splitKeepSeps cs
    else
      match splitKeepSeps cs with
      | [] => [[c]]
      | seg :: rest => (c :: seg) :: rest

/-- `segment in "。！？"` for a fragment produced by the split: true
exactly for the single-character separator elements. -/
def isEndingSeg (s : List Char) : Bool :=
  match s with
  | [c] => isSentenceEnd c
  | _ => false

/-- The `segment_multiplier` of `MotorCortex._segment_text`: 0.8 when
agitated (`arousal > 0.5 and dominance < -0.3`), overridden to 0.5 in
dopamine burst mode (`dopamine > 0.8`). -/
def segmentMultiplier (pad : PadState) : ℚ :=
  let m : ℚ := if 0.5 < pad.arousal ∧ pad.dominance < -0.3 then 0.8 else 1.0
  if 0.8 < pad.dopamine then 0.5 else m

/-- The buffer loop of `MotorCortex._segment_text`: grow the buffer with
each fragment and flush it as a bubble at a sentence-terminal fragment
once it reaches `min_segment_length × segment_multiplier`.  Returns the
flushed bubbles and the remaining buffer. -/
def segmentFold (cfg : MotorConfig) (mult : ℚ)
    (segments : List (List Char)) : List (List Char) × List Char :=
  segments.foldl
    (fun (acc : List (List Char) × List Char) seg =>
      let buffer := acc.2 ++ seg
      if isEndingSeg seg then
        if cfg.minSegmentLength * mult ≤ (buffer.length : ℚ) then
          (acc.1 ++ [buffer], [])
        else (acc.1, buffer)
      else (acc.1, buffer))
    ([], [])

/-- `MotorCortex._segment_text`: split, discard blank fragments, run the
buffer loop; a non-blank trailing buffer becomes a final segment; if
nothing was produced and the text is non-blank, the stripped text becomes
the single segment. -/
def segmentText (cfg : MotorConfig) (text : List Char) (pad : PadState) :
    List (List Char) :=
  let step := segmentFold cfg (segmentMultiplier pad)
    ((splitKeepSeps text).filter (fun s => !(stripChars s).isEmpty))
  let bubbles :=
    if !(stripChars step.2).isEmpty then step.1 ++ [step.2] else step.1
  if bubbles.isEmpty && !(stripChars text).isEmpty then [stripChars text]
  else bubbles

/-- `random.uniform(a, b)` applied to a base draw `u ∈ [0, 1)`. -/
def uniformDraw (a b u : ℚ) : ℚ := a + (b - a) * u

/-- `MotorCortex._calculate_typing_delay` with the `random.uniform(0.9,
1.1)` noise factor passed in. -/
def calculateTypingDelay (cfg : MotorConfig) (textLength : ℕ)
    (pad : PadState) (noiseFactor : ℚ) : ℚ :=
  let speedModifier := 1 + pad.arousal * 0.5
  let speedModifier :=
    if 0.8 < pad.dopamine then speedModifier * 1.3 else speedModifier
  let speedModifier := max 0.5 (min 2.0 speedModifier)
  let effectiveWpm := cfg.baseWpm * speedModifier
  let charsPerSecond := effectiveWpm * 5 / 60
  (textLength : ℚ) / charsPerSecond * noiseFactor

/-- `MotorCortex._calculate_hesitation`. -/
def calculateHesitation (cfg : MotorConfig) (dominance arousal : ℚ) : ℚ :=
  max 0.1 (min 3.0
    (cfg.hesitationBase * (1 - dominance * 0.5) * (1 - arousal * 0.3)))

/-- The action-emission loop of `MotorCortex.articulate`: `n` is the total
number of segments, `i` the current segment index, `k` the number of
random draws consumed so far.  One `uniform(0.9, 1.1)` draw per segment
for the typing duration; one additional `uniform(1.0, 3.0)` draw per
segment when `cortisol > 0.7` for the stress pause. -/
def articulateGo (cfg : MotorConfig) (pad : PadState) (u : ℕ → ℚ) (n : ℕ) :
    List (List Char) → ℕ → ℕ → List Action
  | [], _, _ => []
  | seg :: rest, i, k =>
    let typingDuration :=
      calculateTypingDelay cfg seg.length pad (uniformDraw 0.9 1.1 (u k))
    let hesitationDuration :=
      calculateHesitation cfg pad.dominance pad.arousal
    ([Action.typing typingDuration] ++
     (if 0.7 < pad.cortisol then
        [Action.wait (uniformDraw 1.0 3.0 (u (k + 1)))]
      else []) ++
     [Action.message seg] ++
     (if i < n - 1 then [Action.wait hesitationDuration] else [])) ++
    articulateGo cfg pad u n rest (i + 1)
      (if 0.7 < pad.cortisol then k + 2 else k + 1)

/-- `MotorCortex.articulate`: segment the text, then emit the action
stream. -/
def motorArticulate (cfg : MotorConfig) (text : List Char) (pad : PadState)
    (u : ℕ → ℚ) : List Action :=
  let segments := segmentText cfg text pad
  articulateGo cfg pad u segments.length segments 0 0

/-- Number of draws consumed per segment by the emission loop.  Spec-side
helper for stating the emission-order theorem. -/
def drawStride (pad : PadState) : ℕ := if 0.7 < pad.cortisol then 2 else 1

/-- The content of a `message` action.  Spec-side helper. -/
def messageContent : Action → Option (List Char)
  | .message s => some s
  | _ => none

/-! ## Memory store (`core/hippocampus/__init__.py`, `FileHippocampus`)

Stored records live in a Python dict iterated in insertion order, modelled
as an association list.  Vectors are lists of reals (the store uses
`np.exp`, `np.log` and `np.linalg.norm`).  A float division by a zero
denominator yields NaN in numpy; the guarded variant
`cosineSimilarityFloat` models this as `none`, while `cosineSimilarity`
is the raw real-valued formula used inside `retrieve_memories` (the two
agree whenever the denominator is non-zero).  File persistence
(`_save_to_file`) is fire-and-forget and not modelled. -/

/-- A stored record's `pad` dictionary. -/
structure PadR where
  pleasure : ℝ
  arousal : ℝ
  dominance : ℝ

/-- A stored memory record: the fields `retrieve_memories` and
`store_memory` touch.  `pad` and `timestamp` are optional because
`retrieve_memories` reads them with defaults; `user_info` is a (possibly
empty) string map. -/
structure MemRec where
  vector : List ℝ
  pad : Option PadR
  timestamp : Option ℝ
  userInfo : List (String × String)

/-- The argument of `store_memory`: an episodic-memory dict that may lack
the `vector`, `pad` and `timestamp` keys. -/
structure MemInput where
  vector : Option (List ℝ)
  pad : Option PadR
  timestamp : Option ℝ
  userInfo : List (String × String)

/-- The mutable state of a `FileHippocampus`: the dict of records keyed
by id string, in insertion order, plus the next-id counter. -/
structure HippocampusState where
  memories : List (String × MemRec)
  nextId : ℕ

/-- Python dict assignment `d[k] = v`: replace in place when the key
exists, append otherwise. -/
def dictInsert (k : String) (v : MemRec) :
    List (String × MemRec) → List (String × MemRec)
  | [] => [(k, v)]
  | (k', v') :: rest =>
    if k' = k then (k, v) :: rest else (k', v') :: dictInsert k v rest

/-- `FileHippocampus.store_memory`: take the id string and bump the
counter *before* the vector check; raise when `vector` is missing; fill a
missing `pad` with the zero snapshot and a missing `timestamp` with the
current time; store under the id. -/
def storeMemory (st : HippocampusState) (input : MemInput) (now : ℝ) :
    Except String String × HippocampusState :=
  let memoryId := toString st.nextId
  let st₁ : HippocampusState := { st with nextId := st.nextId + 1 }
  match input.vector with
  | none => (.error "Memory must contain a vector", st₁)
  | some v =>
    let record : MemRec :=
      { vector := v
        pad := some (input.pad.getD ⟨0, 0, 0⟩)
        timestamp := some (input.timestamp.getD now)
        userInfo := input.userInfo }
    (.ok memoryId, { st₁ with memories := dictInsert memoryId record st₁.memories })

/-- `np.dot` on equal-length vectors. -/
def dot (a b : List ℝ) : ℝ := (List.zipWith (· * ·) a b).sum

/-- `np.linalg.norm`. -/
noncomputable def npNorm (v : List ℝ) : ℝ := Real.sqrt (dot v v)

/-- The cosine-similarity expression of `retrieve_memories`, as a raw real
value (total division; meaningful whenever the denominator is non-zero). -/
noncomputable def cosineSimilarity (q v : List ℝ) : ℝ :=
  dot q v / (npNorm q * npNorm v)

/-- The same expression under float semantics: a zero denominator makes
the division produce NaN, modelled as `none`.  The source has no guard
branch — this wrapper only records where the float result is undefined. -/
noncomputable def cosineSimilarityFloat (q v : List ℝ) : Option ℝ :=
  if npNorm q * npNorm v = 0 then none else some (cosineSimilarity q v)

/-- The importance score of `retrieve_memories`: recency decay with a
24-hour half-life (weight 0.4), mean absolute affect (weight 0.3), and
0.3 more when `user_info` is non-empty and has a `"name"` key (a key
implies non-emptiness). -/
noncomputable def importanceScore (now : ℝ) (m : MemRec) : ℝ :=
  let timeDiff := now - m.timestamp.getD now
  let timeDecay := Real.exp (-Real.log 2 * timeDiff / (24 * 3600))
  let pad := m.pad.getD ⟨0, 0, 0⟩
  let emotionalIntensity := (|pad.pleasure| + |pad.arousal| + |pad.dominance|) / 3
  let userBonus : ℝ := if m.userInfo.any (fun kv => kv.1 == "name") then 0.3 else 0
  timeDecay * 0.4 + emotionalIntensity * 0.3 + userBonus

/-- The composite score of `retrieve_memories`,
`similarity * 0.7 + importance_score * 0.3`, as a real number: the value
the float computation takes whenever the similarity denominator is
non-zero (see `totalScoreFloat`). -/
noncomputable def totalScore (q : List ℝ) (now : ℝ) (m : MemRec) : ℝ :=
  cosineSimilarity q m.vector * 0.7 + importanceScore now m * 0.3

/-- The composite score under float semantics: the importance term is
always a real number, so the score is NaN (`none`) exactly when the
similarity is NaN — NaN propagates through `* 0.7 + …`. -/
noncomputable def totalScoreFloat (q : List ℝ) (now : ℝ) (m : MemRec) :
    Option ℝ :=
  (cosineSimilarityFloat q m.vector).map
    (fun sim => sim * 0.7 + importanceScore now m * 0.3)

/-- The sort key relation of `scored_memories.sort(key=..., reverse=True)`:
descending by score. -/
def scoreDescRel (a b : ℝ × MemRec) : Prop := b.1 ≤ a.1

noncomputable instance : DecidableRel scoreDescRel :=
  fun a b => Real.decidableLE b.1 a.1

instance : IsTotal (ℝ × MemRec) scoreDescRel :=
  ⟨fun a b => le_total b.1 a.1⟩

instance : IsTrans (ℝ × MemRec) scoreDescRel :=
  ⟨fun _ _ _ hab hbc => le_trans hbc hab⟩

/-- `FileHippocampus.retrieve_memories`: empty store short-circuit, score
every record in insertion order, stable sort descending by score (Python's
sort is stable; `List.insertionSort` with `scoreDescRel` places
equal-score records in their original relative order), return the top
`limit` records.

The float scores are `totalScoreFloat`; when every score is a real number
(no NaN) the sort keys are exactly the `totalScore` values, and that sort
is modelled.  When some score is NaN — the query vector or a stored
vector has zero norm — every float comparison against that key is false
and the order Timsort produces is an algorithm artefact; that case is
left unmodelled (`none`) rather than given a fabricated order. -/
noncomputable def retrieveMemories (q : List ℝ) (now : ℝ)
    (st : HippocampusState) (limit : ℕ) : Option (List MemRec) :=
  if st.memories.isEmpty then some []
  else if ∀ kv ∈ st.memories, (totalScoreFloat q now kv.2).isSome = true then
    let scored := st.memories.map (fun kv => (totalScore q now kv.2, kv.2))
    let sorted := List.insertionSort scoreDescRel scored
    some ((sorted.take limit).map (fun x => x.2))
  else
    none

/-- Modelled from the spec: descending-by-score order with ties broken by
insertion position, as one total preorder on score-index-record triples.
Spec-side definition used to state the ranking theorem. -/
def lexDescRel (a b : ℝ × ℕ × MemRec) : Prop :=
  b.1 < a.1 ∨ (a.1 = b.1 ∧ a.2.1 ≤ b.2.1)

noncomputable instance : DecidableRel lexDescRel := fun a b => by
  unfold lexDescRel
  infer_instance

/-- Modelled from the spec: "records are ranked descending by score; ties
broken by insertion order; the top `limit` are returned" — tag every
record with its insertion index, sort by score descending then index
ascending, take `limit`.  Compared against `retrieveMemories`. -/
noncomputable def specRankedRetrieve (q : List ℝ) (now : ℝ)
    (st : HippocampusState) (limit : ℕ) : List MemRec :=
  let tagged := st.memories.enum.map (fun p => (totalScore q now p.2.2, p.1, p.2.2))
  ((List.insertionSort lexDescRel tagged).take limit).map (fun x => x.2.2)

/-- Modelled from the spec (claim wording): importance with a 0.3 bonus
for *any* non-empty user-identity info (no `"name"` key required).
Spec-side definition used only to exhibit the divergence. -/
noncomputable def specClaimedImportance (now : ℝ) (m : MemRec) : ℝ :=
  let pad := m.pad.getD ⟨0, 0, 0⟩
  0.4 * (2 : ℝ) ^ (-(now - m.timestamp.getD now) / (24 * 3600)) +
  0.3 * ((|pad.pleasure| + |pad.arousal| + |pad.dominance|) / 3) +
  0.3 * (if m.userInfo ≠ [] then 1 else 0)

/-- Modelled from the spec (claim wording):
`0.7 × cosineSimilarity + 0.3 × importance` with the claimed importance. -/
noncomputable def specClaimedScore (q : List ℝ) (now : ℝ) (m : MemRec) : ℝ :=
  0.7 * cosineSimilarity q m.vector + 0.3 * specClaimedImportance now m

end LimbicFlow

namespace LimbicFlow

/-! ### Basic clamp lemmas -/

theorem clampPad_mem (x : ℝ) : -1 ≤ clampPad x ∧ clampPad x ≤ 1 := by
  unfold clampPad
  constructor
  · exact le_max_left _ _
  · exact max_le (by norm_num) (min_le_left _ _)

theorem clampUnit_mem (x : ℝ) : 0 ≤ clampUnit x ∧ clampUnit x ≤ 1 := by
  unfold clampUnit
  constructor
  · exact le_max_left _ _
  · exact max_le (by norm_num) (min_le_left _ _)

theorem decayFactor_zero (h : ℝ) : decayFactor 0 h = 1 := by
  simp [decayFactor]

theorem decayFactor_eq_rpow (dt h : ℝ) :
    decayFactor dt h = (2 : ℝ) ^ (-dt / h) := by
  rw [decayFactor, Real.rpow_def_of_pos (by norm_num : (0:ℝ) < 2)]
  congr 1
  ring

theorem decayFactor_pos (dt h : ℝ) : 0 < decayFactor dt h :=
  Real.exp_pos _

theorem decayFactor_le_one {dt h : ℝ} (hdt : 0 ≤ dt) (hh : 0 < h) :
    decayFactor dt h ≤ 1 := by
  rw [decayFactor, Real.exp_le_one_iff]
  apply div_nonpos_of_nonpos_of_nonneg _ hh.le
  have hlog : 0 < Real.log 2 := Real.log_pos (by norm_num)
  nlinarith

theorem clampPad_eq_self {x : ℝ} (h₁ : -1 ≤ x) (h₂ : x ≤ 1) :
    clampPad x = x := by
  rw [clampPad, min_eq_right h₂, max_eq_right h₁]

theorem abs_mul_decayFactor_le_one {x dt h : ℝ} (hx₁ : -1 ≤ x) (hx₂ : x ≤ 1)
    (hdt : 0 ≤ dt) (hh : 0 < h) : |x * decayFactor dt h| ≤ 1 := by
  rw [abs_mul, abs_of_pos (decayFactor_pos dt h)]
  have h₁ : |x| ≤ 1 := abs_le.mpr ⟨hx₁, hx₂⟩
  have h₂ := decayFactor_le_one hdt hh
  nlinarith [abs_nonneg x, (decayFactor_pos dt h).le]

/-- C3: after any `update` call — whatever the previous state, the elapsed
time and the stimulus deltas — the PAD axes lie in `[-1, 1]` and the
neurotransmitters in `[0, 1]`; hence the invariant holds after every update
of any sequence of calls. -/
theorem update_values_clamped (s : EmotionState) (timeDelta ip ia idm : ℝ) :
    let s' := update s timeDelta ip ia idm
    (-1 ≤ s'.pleasure ∧ s'.pleasure ≤ 1) ∧
    (-1 ≤ s'.arousal ∧ s'.arousal ≤ 1) ∧
    (-1 ≤ s'.dominance ∧ s'.dominance ≤ 1) ∧
    (0 ≤ s'.dopamine ∧ s'.dopamine ≤ 1) ∧
    (0 ≤ s'.cortisol ∧ s'.cortisol ≤ 1) := by
  refine ⟨?_, ?_, ?_, ?_, ?_⟩ <;>
    first
      | exact clampPad_mem _
      | exact clampUnit_mem _

/-- C1 (counterexample to the claim as stated): for the dopamine axis the
value after an `update` call with zero stimulus is *not*
`baseline + (previous − baseline) × 2^(−Δt/H)`: with previous pleasure 1/2,
elapsed time 0 and dopamine at its baseline 1/2, the call returns dopamine
0.55 (the cross-coupling adds `0.1 × pleasure` after the decay), while the
claimed formula gives 0.5. -/
theorem update_zero_stimulus_decay_counterexample :
    (update ⟨1/2, 0, 0, 1/2, 3/10⟩ 0 0 0 0).dopamine ≠
      0.5 + ((1:ℝ)/2 - 0.5) * (2 : ℝ) ^ (-(0:ℝ) / halfLifeDopamine) := by
  have h : (update ⟨1/2, 0, 0, 1/2, 3/10⟩ 0 0 0 0).dopamine = 0.55 := by
    simp only [update, applyHalfLifeDecay, updateNeurotransmitters,
      clampValues, decayFactor_zero, clampUnit]
    norm_num
  rw [h]
  norm_num

/-- C1 (amended): after an `update` call with zero stimulus and elapsed
time `Δt ≥ 0`, each PAD axis equals `previous × 2^(−Δt/H)` (baseline 0),
while dopamine and cortisol equal the clamped value of
`baseline + (previous − baseline) × 2^(−Δt/H)` *plus* the cross-coupling
increment (`0.1 ×` decayed pleasure for dopamine, `0.1 × |`decayed
arousal`|` for cortisol), with baselines 0.5 and 0.3. -/
theorem update_zero_stimulus_decay (s : EmotionState) (dt : ℝ)
    (hdt : 0 ≤ dt)
    (hp₁ : -1 ≤ s.pleasure) (hp₂ : s.pleasure ≤ 1)
    (ha₁ : -1 ≤ s.arousal) (ha₂ : s.arousal ≤ 1)
    (hd₁ : -1 ≤ s.dominance) (hd₂ : s.dominance ≤ 1) :
    let s' := update s dt 0 0 0
    s'.pleasure = s.pleasure * (2 : ℝ) ^ (-dt / halfLifePleasure) ∧
    s'.arousal = s.arousal * (2 : ℝ) ^ (-dt / halfLifeArousal) ∧
    s'.dominance = s.dominance * (2 : ℝ) ^ (-dt / halfLifeDominance) ∧
    s'.dopamine = clampUnit (0.5 +
      (s.dopamine - 0.5) * (2 : ℝ) ^ (-dt / halfLifeDopamine) +
      s.pleasure * (2 : ℝ) ^ (-dt / halfLifePleasure) * 0.1) ∧
    s'.cortisol = clampUnit (0.3 +
      (s.cortisol - 0.3) * (2 : ℝ) ^ (-dt / halfLifeCortisol) +
      |s.arousal * (2 : ℝ) ^ (-dt / halfLifeArousal)| * 0.1) := by
  have hP : (0:ℝ) < halfLifePleasure := by norm_num [halfLifePleasure]
  have hA : (0:ℝ) < halfLifeArousal := by norm_num [halfLifeArousal]
  have hD : (0:ℝ) < halfLifeDominance := by norm_num [halfLifeDominance]
  refine ⟨?_, ?_, ?_, ?_, ?_⟩ <;>
    simp only [update, applyHalfLifeDecay, updateNeurotransmitters,
      clampValues, add_zero, ← decayFactor_eq_rpow]
  · exact clampPad_eq_self
      (abs_le.mp (abs_mul_decayFactor_le_one hp₁ hp₂ hdt hP)).1
      (abs_le.mp (abs_mul_decayFactor_le_one hp₁ hp₂ hdt hP)).2
  · exact clampPad_eq_self
      (abs_le.mp (abs_mul_decayFactor_le_one ha₁ ha₂ hdt hA)).1
      (abs_le.mp (abs_mul_decayFactor_le_one ha₁ ha₂ hdt hA)).2
  · exact clampPad_eq_self
      (abs_le.mp (abs_mul_decayFactor_le_one hd₁ hd₂ hdt hD)).1
      (abs_le.mp (abs_mul_decayFactor_le_one hd₁ hd₂ hdt hD)).2

/-- C1 (witness): the amended decay theorem applied to a concrete state
with pleasure 1/2 and elapsed time 60 seconds. -/
theorem update_zero_stimulus_decay_witness :
    (0:ℝ) ≤ 60 ∧
    (let s' := update ⟨1/2, 0, 0, 1/2, 3/10⟩ 60 0 0 0
     s'.pleasure = (1/2 : ℝ) * (2 : ℝ) ^ (-(60:ℝ) / halfLifePleasure) ∧
     s'.arousal = (0:ℝ) * (2 : ℝ) ^ (-(60:ℝ) / halfLifeArousal) ∧
     s'.dominance = (0:ℝ) * (2 : ℝ) ^ (-(60:ℝ) / halfLifeDominance) ∧
     s'.dopamine = clampUnit (0.5 +
       ((1/2:ℝ) - 0.5) * (2 : ℝ) ^ (-(60:ℝ) / halfLifeDopamine) +
       (1/2:ℝ) * (2 : ℝ) ^ (-(60:ℝ) / halfLifePleasure) * 0.1) ∧
     s'.cortisol = clampUnit (0.3 +
       ((3/10:ℝ) - 0.3) * (2 : ℝ) ^ (-(60:ℝ) / halfLifeCortisol) +
       |(0:ℝ) * (2 : ℝ) ^ (-(60:ℝ) / halfLifeArousal)| * 0.1)) :=
  ⟨by norm_num,
   update_zero_stimulus_decay ⟨1/2, 0, 0, 1/2, 3/10⟩ 60 (by norm_num)
     (by norm_num) (by norm_num) (by norm_num) (by norm_num)
     (by norm_num) (by norm_num)⟩

theorem cumulativeStress_foldl (history : List AmySnapshot) (a : ℚ) :
    history.foldl
      (fun acc r => if 0.2 < r.arousal ∧ r.pleasure < -0.2 then acc + 0.1 else acc)
      a =
    a + 0.1 * history.countP (fun r => decide (0.2 < r.arousal ∧ r.pleasure < -0.2)) := by
  induction history generalizing a with
  | nil => simp
  | cons r rest ih =>
    by_cases h : 0.2 < r.arousal ∧ r.pleasure < -0.2
    · simp [List.countP_cons, h, ih]
      ring
    · simp [List.countP_cons, h, ih]

/-- C9 (counterexample to the claim as stated): the pass overwrites rather
than raises.  With three recent snapshots all showing high arousal (0.5)
and low pleasure (−0.5) and an incoming cortisol of 0.95, the pass sets
cortisol to 0.3 + 0.3 = 0.6 < 0.95 — it lowers cortisol below its incoming
value under exactly the claimed stress condition.  Moreover with current
pleasure 0.4 and dominance 0 (not high), incoming dopamine 0.5, the pass
raises dopamine to 0.7, so dopamine is raised without both pleasure and
dominance being high. -/
theorem amygdala_process_counterexample :
    (amygdalaProcess [⟨0.5, -0.5⟩, ⟨0.5, -0.5⟩, ⟨0.5, -0.5⟩]
        ⟨0, 0, 0, 0.5, 0.95, 0⟩).cortisol < 0.95 ∧
    (amygdalaProcess [] ⟨0.4, 0, 0, 0.5, 0.3, 0⟩).dopamine > 0.5 ∧
    ¬ ((0.3:ℚ) < (0:ℚ)) := by
  refine ⟨?_, ?_, by norm_num⟩
  · norm_num [amygdalaProcess, cumulativeStress]
  · norm_num [amygdalaProcess, cumulativeStress]

/-- C9 (amended): the stress/reward pass recomputes cortisol as
`clamp01(0.3 + 0.1 × #{recent snapshots with arousal > 0.2 and
pleasure < −0.2} + (0.2 if current arousal > 0.3 and dominance < −0.2
else 0) + environmentalPressure)` and dopamine as `clamp01(0.5 + (0.2 if
pleasure > 0.3 else 0) + (0.1 if dominance > 0.3 else 0))`, both
independent of their incoming values (so either may also fall); all other
state fields are unchanged. -/
theorem amygdala_process_characterization (history : List AmySnapshot)
    (s : AmyState) :
    (amygdalaProcess history s).cortisol =
      min 1 (max 0 (0.3 +
        0.1 * history.countP (fun r => decide (0.2 < r.arousal ∧ r.pleasure < -0.2)) +
        (if 0.3 < s.arousal ∧ s.dominance < -0.2 then 0.2 else 0) +
        s.environmentalPressure)) ∧
    (amygdalaProcess history s).dopamine =
      min 1 (max 0 (0.5 +
        ((if 0.3 < s.pleasure then 0.2 else 0) +
         (if 0.3 < s.dominance then 0.1 else 0)))) ∧
    (amygdalaProcess history s).pleasure = s.pleasure ∧
    (amygdalaProcess history s).arousal = s.arousal ∧
    (amygdalaProcess history s).dominance = s.dominance ∧
    (amygdalaProcess history s).environmentalPressure = s.environmentalPressure := by
  refine ⟨?_, rfl, rfl, rfl, rfl, rfl⟩
  simp [amygdalaProcess, cumulativeStress, cumulativeStress_foldl]

/-! ### Depression policy (C4) -/

theorem depressionDistortGo_eq_dropPass_map (severity : ℚ) (u : ℕ → ℚ) :
    ∀ (l : List MemQ) (k : ℕ),
      depressionDistortGo severity u l k =
        (depressionDropPass severity u l k).map (scaleMem severity)
  | [], _ => rfl
  | m :: rest, k => by
    unfold depressionDistortGo depressionDropPass
    by_cases h₁ : 0.2 < m.padPleasure.getD 0
    · by_cases h₂ : u k < 0.8 * severity <;>
        simp [h₁, h₂, scaleMem, depressionDistortGo_eq_dropPass_map severity u rest]
    · simp [h₁, scaleMem, depressionDistortGo_eq_dropPass_map severity u rest]

theorem depressionDropPass_sublist (severity : ℚ) (u : ℕ → ℚ) :
    ∀ (l : List MemQ) (k : ℕ),
      (depressionDropPass severity u l k).Sublist l
  | [], _ => List.Sublist.refl _
  | m :: rest, k => by
    unfold depressionDropPass
    by_cases h₁ : 0.2 < m.padPleasure.getD 0
    · by_cases h₂ : u k < 0.8 * severity
      · simp only [h₁, h₂, if_true]
        exact (depressionDropPass_sublist severity u rest (k + 1)).cons m
      · simp only [h₁, h₂, if_true, if_false]
        exact (depressionDropPass_sublist severity u rest (k + 1)).cons₂ m
    · simp only [h₁, if_false]
      exact (depressionDropPass_sublist severity u rest k).cons₂ m

/-- C4 (counterexample to the claim as stated): a memory whose stored
pleasure is 0.1 ≤ 0.2 is kept but *not* unchanged: with base severity 0.3
and cortisol 0.2 (severity 0.3) its stored pleasure is scaled by
`1 − 0.8 × 0.3 = 0.76`, yielding 19/250 = 0.076 ≠ 0.1. -/
theorem depression_distort_low_pleasure_counterexample :
    depressionDistortMemories 0.3 [⟨some (1/10)⟩] ⟨0, 0, 0, 0.5, 0.2, 0⟩
        (fun _ => 0) = [⟨some (19/250)⟩] ∧
    (19/250 : ℚ) ≠ 1/10 := by
  constructor
  · norm_num [depressionDistortMemories, depressionDistortGo,
      calculateDynamicSeverity]
  · norm_num

/-- C4 (amended): with severity `min(1, baseSeverity + max(0, cortisol −
0.4))`, the policy first drops each memory whose stored pleasure exceeds
0.2 with probability `0.8 × severity` (drop iff the consumed draw is below
`0.8 × severity`), and then scales the stored pleasure of *every*
surviving memory that carries an affect snapshot — including those with
pleasure ≤ 0.2 — by the factor `1 − 0.8 × severity`; the relative order of
surviving memories is preserved (the drop pass is a sublist of the
input). -/
theorem depression_distort_characterization (baseSeverity : ℚ)
    (memories : List MemQ) (emo : EmoQ) (u : ℕ → ℚ) :
    depressionDistortMemories baseSeverity memories emo u =
      (depressionDropPass (calculateDynamicSeverity baseSeverity emo) u
          memories 0).map (scaleMem (calculateDynamicSeverity baseSeverity emo)) ∧
    (depressionDropPass (calculateDynamicSeverity baseSeverity emo) u
        memories 0).Sublist memories := by
  refine ⟨?_, depressionDropPass_sublist _ _ _ _⟩
  cases memories with
  | nil => rfl
  | cons m rest =>
    rw [depressionDistortMemories]
    simp only [List.isEmpty_cons, Bool.false_eq_true, if_false]
    exact depressionDistortGo_eq_dropPass_map _ _ _ _

/-! ### Pathology chain drivers (C7) -/

theorem cloneIfNeeded_fields {α β : Type} (s : PathoState α β) :
    (cloneIfNeeded s).memories = s.memories ∧
    (cloneIfNeeded s).emo = s.emo ∧
    (cloneIfNeeded s).queryVector = s.queryVector ∧
    ((cloneIfNeeded s).distorted = s.distorted ∨
      (s.distorted = [] ∧ (cloneIfNeeded s).distorted = s.memories)) := by
  unfold cloneIfNeeded
  by_cases h : s.distorted.isEmpty && !s.memories.isEmpty
  · have hd : s.distorted = [] := by
      have := (Bool.and_eq_true _ _).mp h
      exact List.isEmpty_iff.mp this.1
    rw [if_pos h]
    exact ⟨rfl, rfl, rfl, Or.inr ⟨hd, rfl⟩⟩
  · rw [if_neg h]
    exact ⟨rfl, rfl, rfl, Or.inl rfl⟩

theorem applyPathology_failing {α β : Type} (bad : Pathology α β)
    (msg : String)
    (hfail : ∀ ms emo, bad.distortMemories ms emo = Except.error msg)
    (t : PathoState α β) :
    applyPathology bad t =
      if bad.shouldApply t.emo then cloneIfNeeded t else t := by
  unfold applyPathology
  cases hb : bad.shouldApply t.emo
  · simp [hb]
  · cases hd : (cloneIfNeeded t).distorted.isEmpty <;>
      simp [hb, hd, hfail]

theorem queryStep_failing {α β : Type} (bad : Pathology α β) (msg : String)
    (hfail : ∀ v emo, bad.distortQuery v emo = Except.error msg)
    (t : PathoState α β) :
    queryStep bad t = t := by
  unfold queryStep
  cases hb : bad.shouldApply t.emo
  · simp [hb]
  · cases hv : t.queryVector <;> simp [hb, hv, hfail]

/-- C7 (amended): in `PathologyMiddlewareManager`, a policy whose
distortion methods raise is skipped — the chain continues with the
remaining policies in registration order and returns a result.  The
failing policy leaves the emotional state, the raw memories and the query
vector untouched, and contributes at most the initial
raw-memories-to-distorted clone; in `distort_query` it is skipped
entirely.  `BasePathologyMiddleware`, by contrast, has no exception
handling (see the counterexample theorem on its chain aborting). -/
theorem manager_chain_skips_failing_policy {α β : Type}
    (ps₁ ps₂ : List (Pathology α β)) (bad : Pathology α β) (msg : String)
    (s t : PathoState α β)
    (hmem : ∀ ms emo, bad.distortMemories ms emo = Except.error msg)
    (hq : ∀ v emo, bad.distortQuery v emo = Except.error msg) :
    managerProcess (ps₁ ++ bad :: ps₂) s =
      runPathologies ps₂ (applyPathology bad (managerProcess ps₁ s)) ∧
    (applyPathology bad t).memories = t.memories ∧
    (applyPathology bad t).emo = t.emo ∧
    (applyPathology bad t).queryVector = t.queryVector ∧
    ((applyPathology bad t).distorted = t.distorted ∨
      (t.distorted = [] ∧ (applyPathology bad t).distorted = t.memories)) ∧
    managerDistortQuery (ps₁ ++ bad :: ps₂) s =
      managerDistortQuery (ps₁ ++ ps₂) s := by
  have happ := applyPathology_failing bad msg hmem t
  have hclone := cloneIfNeeded_fields t
  refine ⟨?_, ?_, ?_, ?_, ?_, ?_⟩
  · simp [managerProcess, runPathologies, List.foldl_append]
  · rw [happ]; cases hb : bad.shouldApply t.emo <;> simp [hclone.1]
  · rw [happ]; cases hb : bad.shouldApply t.emo <;> simp [hclone.2.1]
  · rw [happ]; cases hb : bad.shouldApply t.emo <;> simp [hclone.2.2.1]
  · rw [happ]
    cases hb : bad.shouldApply t.emo
    · simp
    · simpa using hclone.2.2.2
  · unfold managerDistortQuery
    cases hv : s.queryVector
    · rfl
    · simp only [List.foldl_append, List.foldl_cons]
      rw [queryStep_failing bad msg hq]

/-- C7 (witness): the amended theorem at a concrete failing policy over
natural-number memories, with one raw memory list `[1, 2]` and query
vector `7`. -/
theorem manager_chain_skips_failing_policy_witness :
    managerProcess ([] ++ (⟨fun _ => true, fun _ _ => Except.error "boom",
        fun _ _ => Except.error "boom"⟩ : Pathology ℕ ℕ) :: [])
        ⟨⟨0, 0, 0, 0, 0, 0⟩, some 7, [1, 2], []⟩ =
      runPathologies []
        (applyPathology ⟨fun _ => true, fun _ _ => Except.error "boom",
            fun _ _ => Except.error "boom"⟩
          (managerProcess [] ⟨⟨0, 0, 0, 0, 0, 0⟩, some 7, [1, 2], []⟩)) ∧
    (applyPathology (⟨fun _ => true, fun _ _ => Except.error "boom",
        fun _ _ => Except.error "boom"⟩ : Pathology ℕ ℕ)
        ⟨⟨0, 0, 0, 0, 0, 0⟩, some 7, [1, 2], []⟩).memories = [1, 2] ∧
    (applyPathology (⟨fun _ => true, fun _ _ => Except.error "boom",
        fun _ _ => Except.error "boom"⟩ : Pathology ℕ ℕ)
        ⟨⟨0, 0, 0, 0, 0, 0⟩, some 7, [1, 2], []⟩).emo = ⟨0, 0, 0, 0, 0, 0⟩ ∧
    (applyPathology (⟨fun _ => true, fun _ _ => Except.error "boom",
        fun _ _ => Except.error "boom"⟩ : Pathology ℕ ℕ)
        ⟨⟨0, 0, 0, 0, 0, 0⟩, some 7, [1, 2], []⟩).queryVector = some 7 ∧
    ((applyPathology (⟨fun _ => true, fun _ _ => Except.error "boom",
        fun _ _ => Except.error "boom"⟩ : Pathology ℕ ℕ)
        ⟨⟨0, 0, 0, 0, 0, 0⟩, some 7, [1, 2], []⟩).distorted = [] ∨
      (([] : List ℕ) = [] ∧
        (applyPathology (⟨fun _ => true, fun _ _ => Except.error "boom",
            fun _ _ => Except.error "boom"⟩ : Pathology ℕ ℕ)
            ⟨⟨0, 0, 0, 0, 0, 0⟩, some 7, [1, 2], []⟩).distorted = [1, 2])) ∧
    managerDistortQuery ([] ++ (⟨fun _ => true, fun _ _ => Except.error "boom",
        fun _ _ => Except.error "boom"⟩ : Pathology ℕ ℕ) :: [])
        ⟨⟨0, 0, 0, 0, 0, 0⟩, some 7, [1, 2], []⟩ =
      managerDistortQuery ([] ++ [])
        ⟨⟨0, 0, 0, 0, 0, 0⟩, some 7, [1, 2], []⟩ :=
  manager_chain_skips_failing_policy [] []
    ⟨fun _ => true, fun _ _ => Except.error "boom",
      fun _ _ => Except.error "boom"⟩ "boom"
    ⟨⟨0, 0, 0, 0, 0, 0⟩, some 7, [1, 2], []⟩
    ⟨⟨0, 0, 0, 0, 0, 0⟩, some 7, [1, 2], []⟩
    (fun _ _ => rfl) (fun _ _ => rfl)

/-- C7 (counterexample to the claim as stated): the pathology chain of
`BasePathologyMiddleware` — the one instantiated by the pipeline — has no
exception handling: a registered policy that raises during memory
distortion aborts the whole chain instead of being skipped, even when a
healthy policy follows it. -/
theorem base_middleware_chain_aborts :
    baseMiddlewareDistortMemories
      ([⟨fun _ => true, fun v _ => Except.ok v, fun _ _ => Except.error "boom"⟩,
        ⟨fun _ => true, fun v _ => Except.ok v, fun ms _ => Except.ok ms⟩] :
          List (Pathology ℕ ℕ))
      [1, 2] ⟨0, 0, 0, 0, 0, 0⟩ = Except.error "boom" := by
  rfl

/-! ### Articulation engine (C5, C8) -/

theorem articulateGo_enumFrom (cfg : MotorConfig) (pad : PadState)
    (u : ℕ → ℚ) (n : ℕ) :
    ∀ (l : List (List Char)) (i : ℕ),
      articulateGo cfg pad u n l i (drawStride pad * i) =
        (List.enumFrom i l).flatMap (fun p =>
          [Action.typing (calculateTypingDelay cfg p.2.length pad
            (uniformDraw 0.9 1.1 (u (drawStride pad * p.1))))] ++
          (if 0.7 < pad.cortisol then
            [Action.wait (uniformDraw 1.0 3.0 (u (drawStride pad * p.1 + 1)))]
          else []) ++
          [Action.message p.2] ++
          (if p.1 < n - 1 then
            [Action.wait (calculateHesitation cfg pad.dominance pad.arousal)]
          else []))
  | [], i => rfl
  | seg :: rest, i => by
    rw [articulateGo, List.enumFrom_cons]
    have hk : (if 0.7 < pad.cortisol then drawStride pad * i + 2
        else drawStride pad * i + 1) = drawStride pad * (i + 1) := by
      by_cases h : 0.7 < pad.cortisol <;>
        simp [h, drawStride, Nat.mul_add]
    rw [hk, articulateGo_enumFrom cfg pad u n rest (i + 1)]
    simp

theorem articulateGo_messages (cfg : MotorConfig) (pad : PadState)
    (u : ℕ → ℚ) (n : ℕ) :
    ∀ (l : List (List Char)) (i k : ℕ),
      (articulateGo cfg pad u n l i k).filterMap messageContent = l
  | [], _, _ => rfl
  | seg :: rest, i, k => by
    rw [articulateGo]
    by_cases hc : 0.7 < pad.cortisol <;>
      by_cases hl : i < n - 1 <;>
        simp [hc, hl, List.filterMap_append, messageContent,
          articulateGo_messages cfg pad u n rest]

/-- C5: for every input text, affect state and draw stream, the action
stream is exactly, segment by segment in order: one typing event (with the
computed typing duration and its `uniform(0.9, 1.1)` noise draw), then —
if and only if `cortisol > 0.7` — one stand-alone wait of
`uniform(1.0, 3.0)` seconds, then one message event carrying the segment,
then one wait with the hesitation duration if and only if the segment is
not the last one; in particular the message contents reproduce the
segments in order. -/
theorem articulate_emission_order (cfg : MotorConfig) (text : List Char)
    (pad : PadState) (u : ℕ → ℚ) :
    motorArticulate cfg text pad u =
      (segmentText cfg text pad).enum.flatMap (fun p =>
        [Action.typing (calculateTypingDelay cfg p.2.length pad
          (uniformDraw 0.9 1.1 (u (drawStride pad * p.1))))] ++
        (if 0.7 < pad.cortisol then
          [Action.wait (uniformDraw 1.0 3.0 (u (drawStride pad * p.1 + 1)))]
        else []) ++
        [Action.message p.2] ++
        (if p.1 < (segmentText cfg text pad).length - 1 then
          [Action.wait (calculateHesitation cfg pad.dominance pad.arousal)]
        else [])) ∧
    (motorArticulate cfg text pad u).filterMap messageContent =
      segmentText cfg text pad := by
  constructor
  · have h := articulateGo_enumFrom cfg pad u
      (segmentText cfg text pad).length (segmentText cfg text pad) 0
    rw [Nat.mul_zero] at h
    exact h
  · exact articulateGo_messages cfg pad u _ _ _ _

/-- C8 (counterexample to the claim as stated): the non-empty,
whitespace-only input `" "` produces an empty action stream — no message
at all: every split fragment is blank, and the single-segment fallback
fires only when the *stripped* text is non-empty. -/
theorem articulate_blank_input_counterexample :
    motorArticulate defaultMotorConfig [' '] ⟨0, 0, 0, 0, 0⟩ (fun _ => 0) =
      [] ∧
    ([' '] : List Char) ≠ [] := by
  exact ⟨rfl, by decide⟩

theorem segmentText_ne_nil (cfg : MotorConfig) (text : List Char)
    (pad : PadState) (h : stripChars text ≠ []) :
    segmentText cfg text pad ≠ [] := by
  have hstrip : (stripChars text).isEmpty = false := by
    cases he : (stripChars text).isEmpty
    · rfl
    · exact absurd (List.isEmpty_iff.mp he) h
  rw [segmentText]
  simp only [hstrip, Bool.not_false, Bool.and_true]
  split
  · split
    · exact List.cons_ne_nil _ _
    · simp
  · split
    · exact List.cons_ne_nil _ _
    · rename_i hne
      intro hcon
      rw [hcon] at hne
      exact hne rfl

/-- C8 (amended): for every input text that contains a non-whitespace
character (its Python `strip()` is non-empty), segmentation produces at
least one segment — if the split-and-buffer loop produced none, the whole
stripped text becomes the single segment — and the articulation output
contains at least one message action.  (A non-empty but whitespace-only
input yields no message; see the counterexample.) -/
theorem articulate_nonblank_has_message (cfg : MotorConfig)
    (text : List Char) (pad : PadState) (u : ℕ → ℚ)
    (h : stripChars text ≠ []) :
    segmentText cfg text pad ≠ [] ∧
    0 < ((motorArticulate cfg text pad u).filterMap messageContent).length := by
  have hseg := segmentText_ne_nil cfg text pad h
  refine ⟨hseg, ?_⟩
  rw [motorArticulate, articulateGo_messages]
  exact List.length_pos.mpr hseg

/-- C8 (witness): the amended theorem on the concrete input `"hi"` with a
neutral affect state. -/
theorem articulate_nonblank_has_message_witness :
    stripChars ['h', 'i'] ≠ [] ∧
    (segmentText defaultMotorConfig ['h', 'i'] ⟨0, 0, 0, 0, 0⟩ ≠ [] ∧
     0 < ((motorArticulate defaultMotorConfig ['h', 'i'] ⟨0, 0, 0, 0, 0⟩
        (fun _ => 0)).filterMap messageContent).length) :=
  ⟨by decide,
   articulate_nonblank_has_message defaultMotorConfig ['h', 'i']
     ⟨0, 0, 0, 0, 0⟩ (fun _ => 0) (by decide)⟩

/-! ### Cosine similarity and the missing zero-vector guard (C6) -/

theorem dot_self_eq_zero {q : List ℝ} (h : ∀ x ∈ q, x = 0) :
    dot q q = 0 := by
  induction q with
  | nil => simp [dot]
  | cons a rest ih =>
    have ha : a = 0 := h a (List.mem_cons_self _ _)
    have hr : dot rest rest = 0 :=
      ih (fun x hx => h x (List.mem_cons_of_mem _ hx))
    simp only [dot, List.zipWith_cons_cons, List.sum_cons] at *
    rw [ha, hr]
    ring

theorem npNorm_eq_zero {q : List ℝ} (h : ∀ x ∈ q, x = 0) :
    npNorm q = 0 := by
  rw [npNorm, dot_self_eq_zero h, Real.sqrt_zero]

/-- C6 (counterexample to the claim as stated): for the zero query vector
`[0]` against the stored vector `[1]`, the denominator
`‖q‖ × ‖v‖` of the similarity expression in `retrieve_memories` is zero —
the code has no guard branch, so the float similarity is NaN (undefined),
not the claimed 0. -/
theorem cosine_zero_guard_counterexample :
    cosineSimilarityFloat [(0 : ℝ)] [1] = none ∧
    (none : Option ℝ) ≠ some 0 := by
  refine ⟨?_, by simp⟩
  have h0 : npNorm [(0 : ℝ)] * npNorm [1] = 0 := by
    have h : npNorm [(0 : ℝ)] = 0 := npNorm_eq_zero (by simp)
    rw [h, zero_mul]
  rw [cosineSimilarityFloat, if_pos h0]

/-- C6 (amended): `retrieve_memories` computes
`dot(q, v) / (‖q‖ × ‖v‖)` with *no* zero-vector guard: whenever the query
vector or the record vector is the zero vector the denominator is zero and
the float similarity is NaN — undefined rather than 0.  (`none` models the
NaN result; for a non-zero denominator the float value is the real
quotient.) -/
theorem cosine_no_zero_guard (q v w : List ℝ) (h : ∀ x ∈ q, x = 0) :
    cosineSimilarityFloat q v = none ∧
    cosineSimilarityFloat w q = none ∧
    (npNorm w * npNorm v ≠ 0 →
      cosineSimilarityFloat w v = some (cosineSimilarity w v)) := by
  have hq : npNorm q = 0 := npNorm_eq_zero h
  refine ⟨?_, ?_, ?_⟩
  · rw [cosineSimilarityFloat, if_pos (by rw [hq, zero_mul])]
  · rw [cosineSimilarityFloat, if_pos (by rw [hq, mul_zero])]
  · intro hnz
    rw [cosineSimilarityFloat, if_neg hnz]

/-- C6 (witness): the amended guard theorem at the zero vector `[0]`,
record vector `[1]` and non-zero pair `[3]`, `[4]`. -/
theorem cosine_no_zero_guard_witness :
    (∀ x ∈ [(0 : ℝ)], x = 0) ∧
    (cosineSimilarityFloat [(0 : ℝ)] [1] = none ∧
     cosineSimilarityFloat [3] [(0 : ℝ)] = none ∧
     (npNorm [(3 : ℝ)] * npNorm [1] ≠ 0 →
       cosineSimilarityFloat [(3 : ℝ)] [1] =
         some (cosineSimilarity [3] [1]))) :=
  ⟨by simp, cosine_no_zero_guard [0] [1] [3] (by simp)⟩

/-! ### Store contract (C10) -/

theorem dictInsert_lookup_self (k : String) (v : MemRec) :
    ∀ l : List (String × MemRec), (dictInsert k v l).lookup k = some v
  | [] => by simp [dictInsert]
  | (k₀, v₀) :: rest => by
    rw [dictInsert]
    by_cases h : k₀ = k
    · simp [h]
    · have hne : (k == k₀) = false := by
        simp [Ne.symm h]
      simp only [h, if_false, List.lookup, hne]
      exact dictInsert_lookup_self k v rest

theorem dictInsert_lookup_other (k : String) (v : MemRec) (k' : String)
    (hk : k' ≠ k) :
    ∀ l : List (String × MemRec),
      (dictInsert k v l).lookup k' = l.lookup k'
  | [] => by
    have hne : (k' == k) = false := by simp [hk]
    simp [dictInsert, List.lookup, hne]
  | (k₀, v₀) :: rest => by
    rw [dictInsert]
    by_cases h : k₀ = k
    · subst h
      have hne : (k' == k₀) = false := by simp [hk]
      simp [List.lookup, hne]
    · simp only [h, if_false, List.lookup]
      cases hq : k' == k₀
      · exact dictInsert_lookup_other k v k' hk rest
      · rfl

/-- C10: `store_memory` fails exactly when the input lacks a `vector`
field (leaving the stored records unchanged, though the id counter is
still bumped); on success it returns the string form of the incoming
next-id counter, increments the counter by exactly one (so successive
successful stores yield strictly increasing ids), stores the record with a
missing `pad` filled by the zero affect snapshot and a missing
`timestamp` filled by the current time, and leaves every previously
stored record unchanged. -/
theorem store_memory_contract (st : HippocampusState) (input : MemInput)
    (now : ℝ) (hfresh : st.memories.lookup (toString st.nextId) = none) :
    (input.vector = none →
      (storeMemory st input now).1 = Except.error "Memory must contain a vector" ∧
      (storeMemory st input now).2.memories = st.memories ∧
      (storeMemory st input now).2.nextId = st.nextId + 1) ∧
    (∀ v, input.vector = some v →
      (storeMemory st input now).1 = Except.ok (toString st.nextId) ∧
      (storeMemory st input now).2.nextId = st.nextId + 1 ∧
      (storeMemory st input now).2.memories.lookup (toString st.nextId) =
        some ⟨v, some (input.pad.getD ⟨0, 0, 0⟩),
          some (input.timestamp.getD now), input.userInfo⟩ ∧
      (∀ k r, st.memories.lookup k = some r →
        (storeMemory st input now).2.memories.lookup k = some r)) := by
  constructor
  · intro hv
    rw [storeMemory]
    simp [hv]
  · intro v hv
    rw [storeMemory]
    simp only [hv]
    refine ⟨trivial, trivial, ?_, ?_⟩
    · exact dictInsert_lookup_self _ _ _
    · intro k r hkr
      have hk : k ≠ toString st.nextId := by
        intro hcon
        rw [hcon, hfresh] at hkr
        exact Option.noConfusion hkr
      rw [dictInsert_lookup_other _ _ _ hk]
      exact hkr

/-- C10 (witness): the store contract on the empty store with a
vector-only input and with a vector-less input. -/
theorem store_memory_contract_witness :
    (⟨[], 0⟩ : HippocampusState).memories.lookup (toString (0 : ℕ)) = none ∧
    ((⟨some [1], none, none, []⟩ : MemInput).vector = none →
      (storeMemory ⟨[], 0⟩ ⟨some [1], none, none, []⟩ 0).1 =
        Except.error "Memory must contain a vector" ∧
      (storeMemory ⟨[], 0⟩ ⟨some [1], none, none, []⟩ 0).2.memories = [] ∧
      (storeMemory ⟨[], 0⟩ ⟨some [1], none, none, []⟩ 0).2.nextId = 0 + 1) ∧
    (∀ v, (⟨some [1], none, none, []⟩ : MemInput).vector = some v →
      (storeMemory ⟨[], 0⟩ ⟨some [1], none, none, []⟩ 0).1 =
        Except.ok (toString (0 : ℕ)) ∧
      (storeMemory ⟨[], 0⟩ ⟨some [1], none, none, []⟩ 0).2.nextId = 0 + 1 ∧
      (storeMemory ⟨[], 0⟩ ⟨some [1], none, none, []⟩
          0).2.memories.lookup (toString (0 : ℕ)) =
        some ⟨v, some ((none : Option PadR).getD ⟨0, 0, 0⟩),
          some ((none : Option ℝ).getD 0), []⟩ ∧
      (∀ k r, ([] : List (String × MemRec)).lookup k = some r →
        (storeMemory ⟨[], 0⟩ ⟨some [1], none, none, []⟩
            0).2.memories.lookup k = some r)) :=
  ⟨rfl, store_memory_contract ⟨[], 0⟩ ⟨some [1], none, none, []⟩ 0 rfl⟩

/-! ### Retrieval ranking (C2)

The Python sort is stable on the score key alone; tagging every record
with its insertion index turns "stable descending by score" into plain
sortedness under the total preorder `lexDescRel`.  The two insertion sorts
coincide when the indices are strictly increasing. -/

theorem orderedInsert_score_eq_lex (x : ℝ × ℕ × MemRec) :
    ∀ m : List (ℝ × ℕ × MemRec), (∀ y ∈ m, x.2.1 < y.2.1) →
      List.orderedInsert scoreDescRel (x.1, x.2.2)
          (m.map (fun z => (z.1, z.2.2))) =
        (List.orderedInsert lexDescRel x m).map (fun z => (z.1, z.2.2))
  | [], _ => rfl
  | y :: ys, h => by
    have hxy : x.2.1 < y.2.1 := h y (List.mem_cons_self _ _)
    rw [List.map_cons]
    simp only [List.orderedInsert]
    by_cases hle : scoreDescRel (x.1, x.2.2) (y.1, y.2.2)
    · have hle' : y.1 ≤ x.1 := hle
      have hlex : lexDescRel x y := by
        rcases lt_or_eq_of_le hle' with hlt | heq
        · exact Or.inl hlt
        · exact Or.inr ⟨heq.symm, hxy.le⟩
      rw [if_pos hle, if_pos hlex, List.map_cons, List.map_cons]
    · have hnlex : ¬ lexDescRel x y := by
        intro hc
        rcases hc with hlt | ⟨heq, _⟩
        · exact hle hlt.le
        · exact hle (le_of_eq heq.symm)
      rw [if_neg hle, if_neg hnlex, List.map_cons,
        orderedInsert_score_eq_lex x ys
          (fun z hz => h z (List.mem_cons_of_mem _ hz))]

theorem insertionSort_score_eq_lex :
    ∀ l : List (ℝ × ℕ × MemRec), l.Pairwise (fun a b => a.2.1 < b.2.1) →
      List.insertionSort scoreDescRel (l.map (fun z => (z.1, z.2.2))) =
        (List.insertionSort lexDescRel l).map (fun z => (z.1, z.2.2))
  | [], _ => rfl
  | x :: rest, h => by
    rw [List.map_cons]
    simp only [List.insertionSort]
    rw [insertionSort_score_eq_lex rest (List.pairwise_cons.mp h).2]
    exact orderedInsert_score_eq_lex x _
      (fun y hy => (List.pairwise_cons.mp h).1 y
        ((List.perm_insertionSort lexDescRel rest).mem_iff.mp hy))

theorem enumFrom_pairwise_fst_lt {γ : Type} :
    ∀ (l : List γ) (i : ℕ),
      (List.enumFrom i l).Pairwise (fun a b => a.1 < b.1)
  | [], _ => List.Pairwise.nil
  | a :: rest, i => by
    rw [List.enumFrom_cons]
    refine List.pairwise_cons.mpr ⟨?_, enumFrom_pairwise_fst_lt rest (i + 1)⟩
    intro y hy
    exact lt_of_lt_of_le (Nat.lt_succ_self i) (List.mem_enumFrom hy).1

theorem totalScoreFloat_of_ne (q : List ℝ) (now : ℝ) (m : MemRec)
    (h : npNorm q * npNorm m.vector ≠ 0) :
    totalScoreFloat q now m = some (totalScore q now m) := by
  rw [totalScoreFloat, cosineSimilarityFloat, if_neg h, Option.map_some',
    totalScore]

/-- C2 (amended): provided the query vector and every stored record
vector have non-zero norm — so no NaN similarity arises (see C6; with a
NaN score the float sort order is an unmodelled Timsort artefact) —
`retrieve_memories` returns at most `limit` records and the empty
sequence on an empty store; the result is exactly the records ranked
descending by `score = 0.7 × cosineSimilarity + 0.3 × importance` — where
the identity bonus of the importance requires the `"name"` key in the
record's user info, not just any non-empty user info — with ties broken
by insertion order, truncated to `limit`; in particular the scores along
the result are non-increasing. -/
theorem retrieve_ranking (q : List ℝ) (now : ℝ) (st : HippocampusState)
    (limit : ℕ)
    (h : ∀ kv ∈ st.memories, npNorm q * npNorm kv.2.vector ≠ 0) :
    ∃ l : List MemRec,
      retrieveMemories q now st limit = some l ∧
      l.length ≤ limit ∧
      (st.memories = [] → l = []) ∧
      l = specRankedRetrieve q now st limit ∧
      l.Pairwise (fun a b => totalScore q now b ≤ totalScore q now a) := by
  have hguard : ∀ kv ∈ st.memories,
      (totalScoreFloat q now kv.2).isSome = true := by
    intro kv hkv
    rw [totalScoreFloat_of_ne q now kv.2 (h kv hkv)]
    rfl
  by_cases hemp : st.memories.isEmpty
  · have hnil : st.memories = [] := List.isEmpty_iff.mp hemp
    refine ⟨[], ?_, by simp, fun _ => rfl, ?_, List.Pairwise.nil⟩
    · rw [retrieveMemories]
      simp [hemp]
    · rw [specRankedRetrieve, hnil]
      simp
  · have hscored :
        st.memories.map (fun kv => (totalScore q now kv.2, kv.2)) =
          (st.memories.enum.map
            (fun p => (totalScore q now p.2.2, p.1, p.2.2))).map
            (fun z => (z.1, z.2.2)) := by
      rw [List.map_map]
      have : st.memories.map (fun kv => (totalScore q now kv.2, kv.2)) =
          (st.memories.enum.map Prod.snd).map
            (fun kv => (totalScore q now kv.2, kv.2)) := by
        rw [List.enum_map_snd]
      rw [this, List.map_map]
      rfl
    have hpair :
        (st.memories.enum.map
          (fun p => (totalScore q now p.2.2, p.1, p.2.2))).Pairwise
          (fun a b => a.2.1 < b.2.1) := by
      refine (List.pairwise_map).mpr ?_
      have := enumFrom_pairwise_fst_lt st.memories 0
      rw [← List.enum_eq_enumFrom] at this
      exact this
    have hsort :
        List.insertionSort scoreDescRel
            (st.memories.map (fun kv => (totalScore q now kv.2, kv.2))) =
          (List.insertionSort lexDescRel
            (st.memories.enum.map
              (fun p => (totalScore q now p.2.2, p.1, p.2.2)))).map
            (fun z => (z.1, z.2.2)) := by
      rw [hscored]
      exact insertionSort_score_eq_lex _ hpair
    refine ⟨((List.insertionSort scoreDescRel
        (st.memories.map (fun kv => (totalScore q now kv.2, kv.2)))).take
          limit).map (fun x => x.2), ?_, ?_, ?_, ?_, ?_⟩
    · rw [retrieveMemories]
      simp only [hemp, Bool.false_eq_true, if_false]
      rw [if_pos hguard]
    · simp only [List.length_map]
      rw [List.length_take]
      exact Nat.min_le_left _ _
    · intro hnil
      rw [hnil] at hemp
      exact absurd rfl hemp
    · rw [specRankedRetrieve]
      rw [hsort, ← List.map_take, List.map_map]
      rfl
    · have hsorted : List.Sorted scoreDescRel
          (List.insertionSort scoreDescRel
            (st.memories.map (fun kv => (totalScore q now kv.2, kv.2)))) :=
        List.sorted_insertionSort scoreDescRel _
      have htake : (List.Sorted scoreDescRel
          ((List.insertionSort scoreDescRel
            (st.memories.map (fun kv => (totalScore q now kv.2, kv.2)))).take
              limit)) :=
        hsorted.sublist (List.take_sublist _ _)
      refine (List.pairwise_map).mpr ?_
      refine htake.imp_of_mem ?_
      intro a b ha hb hr
      have hmemscore : ∀ x ∈ (List.insertionSort scoreDescRel
          (st.memories.map (fun kv => (totalScore q now kv.2, kv.2)))).take
            limit, x.1 = totalScore q now x.2 := by
        intro x hx
        have hx₁ : x ∈ List.insertionSort scoreDescRel
            (st.memories.map (fun kv => (totalScore q now kv.2, kv.2))) :=
          List.mem_of_mem_take hx
        have hx₂ : x ∈ st.memories.map
            (fun kv => (totalScore q now kv.2, kv.2)) :=
          (List.perm_insertionSort scoreDescRel _).mem_iff.mp hx₁
        obtain ⟨kv, _, hkv⟩ := List.mem_map.mp hx₂
        rw [← hkv]
      have ha' := hmemscore a ha
      have hb' := hmemscore b hb
      have : b.1 ≤ a.1 := hr
      rw [ha', hb'] at this
      exact this

/-- C2 (witness): the ranking theorem on a one-record store whose vector
`[1]` and query `[1]` have non-zero norms. -/
theorem retrieve_ranking_witness :
    (∀ kv ∈ [("0", (⟨[1], none, none, []⟩ : MemRec))],
        npNorm [(1 : ℝ)] * npNorm kv.2.vector ≠ 0) ∧
    (∃ l : List MemRec,
      retrieveMemories [(1 : ℝ)] 0
          ⟨[("0", ⟨[1], none, none, []⟩)], 1⟩ 5 = some l ∧
      l.length ≤ 5 ∧
      (([("0", (⟨[1], none, none, []⟩ : MemRec))] :
          List (String × MemRec)) = [] → l = []) ∧
      l = specRankedRetrieve [(1 : ℝ)] 0
          ⟨[("0", ⟨[1], none, none, []⟩)], 1⟩ 5 ∧
      l.Pairwise (fun a b =>
        totalScore [(1 : ℝ)] 0 b ≤ totalScore [(1 : ℝ)] 0 a)) :=
  ⟨by
    intro kv hkv
    have hn : npNorm [(1 : ℝ)] = 1 := by
      have hd : dot [(1 : ℝ)] [1] = 1 := by norm_num [dot]
      rw [npNorm, hd, Real.sqrt_one]
    rcases List.mem_cons.mp hkv with h₁ | h₂
    · rw [h₁]
      show npNorm [(1 : ℝ)] * npNorm [(1 : ℝ)] ≠ 0
      rw [hn]
      norm_num
    · exact absurd h₂ (List.not_mem_nil _),
   retrieve_ranking [(1 : ℝ)] 0 ⟨[("0", ⟨[1], none, none, []⟩)], 1⟩ 5
     (by
       intro kv hkv
       have hn : npNorm [(1 : ℝ)] = 1 := by
         have hd : dot [(1 : ℝ)] [1] = 1 := by norm_num [dot]
         rw [npNorm, hd, Real.sqrt_one]
       rcases List.mem_cons.mp hkv with h₁ | h₂
       · rw [h₁]
         show npNorm [(1 : ℝ)] * npNorm [(1 : ℝ)] ≠ 0
         rw [hn]
         norm_num
       · exact absurd h₂ (List.not_mem_nil _))⟩

/-- C2 (counterexample to the claim as stated): two records with equal
zero similarity and equal timestamps, where record A carries non-empty
user info *without* a `"name"` key and record B carries a mildly pleasant
affect snapshot.  The claimed importance gives A the 0.3 identity bonus,
ranking A strictly above B — but the code awards no bonus without the
`"name"` key and returns `[B, A]`. -/
theorem retrieve_userinfo_counterexample :
    retrieveMemories [1, 0] 0
        ⟨[("0", ⟨[0, 1], some ⟨0, 0, 0⟩, some 0, [("age", "30")]⟩),
          ("1", ⟨[0, 1], some ⟨3/10, 0, 0⟩, some 0, []⟩)], 2⟩ 5 =
      some [⟨[0, 1], some ⟨3/10, 0, 0⟩, some 0, []⟩,
        ⟨[0, 1], some ⟨0, 0, 0⟩, some 0, [("age", "30")]⟩] ∧
    specClaimedScore [1, 0] 0
        ⟨[0, 1], some ⟨3/10, 0, 0⟩, some 0, []⟩ <
      specClaimedScore [1, 0] 0
        ⟨[0, 1], some ⟨0, 0, 0⟩, some 0, [("age", "30")]⟩ := by
  have hsim : cosineSimilarity [(1 : ℝ), 0] [0, 1] = 0 := by
    rw [cosineSimilarity]
    have : dot [(1 : ℝ), 0] [0, 1] = 0 := by
      simp [dot]
    rw [this, zero_div]
  have himpA : importanceScore 0
      ⟨[0, 1], some ⟨0, 0, 0⟩, some 0, [("age", "30")]⟩ = 0.4 := by
    rw [importanceScore]
    norm_num
    decide
  have himpB : importanceScore 0
      ⟨[0, 1], some ⟨3/10, 0, 0⟩, some 0, []⟩ = 0.43 := by
    rw [importanceScore]
    norm_num [abs_of_nonneg]
  have hsA : totalScore [1, 0] 0
      ⟨[0, 1], some ⟨0, 0, 0⟩, some 0, [("age", "30")]⟩ = 0.12 := by
    rw [totalScore, hsim, himpA]
    norm_num
  have hsB : totalScore [1, 0] 0
      ⟨[0, 1], some ⟨3/10, 0, 0⟩, some 0, []⟩ = 0.129 := by
    rw [totalScore, hsim, himpB]
    norm_num
  have hn10 : npNorm [(1 : ℝ), 0] = 1 := by
    have hd : dot [(1 : ℝ), 0] [1, 0] = 1 := by norm_num [dot]
    rw [npNorm, hd, Real.sqrt_one]
  have hn01 : npNorm [(0 : ℝ), 1] = 1 := by
    have hd : dot [(0 : ℝ), 1] [0, 1] = 1 := by norm_num [dot]
    rw [npNorm, hd, Real.sqrt_one]
  have hdenom : npNorm [(1 : ℝ), 0] * npNorm [(0 : ℝ), 1] ≠ 0 := by
    rw [hn10, hn01]
    norm_num
  have hguard₂ : ∀ kv ∈
      [("0", (⟨[0, 1], some ⟨0, 0, 0⟩, some 0, [("age", "30")]⟩ : MemRec)),
       ("1", ⟨[0, 1], some ⟨3/10, 0, 0⟩, some 0, []⟩)],
      (totalScoreFloat [(1 : ℝ), 0] 0 kv.2).isSome = true := by
    intro kv hkv
    rcases List.mem_cons.mp hkv with hkv₁ | hkv₂
    · rw [hkv₁, totalScoreFloat_of_ne [(1 : ℝ), 0] 0
        ⟨[0, 1], some ⟨0, 0, 0⟩, some 0, [("age", "30")]⟩ hdenom]
      rfl
    · rcases List.mem_cons.mp hkv₂ with hkv₃ | hkv₄
      · rw [hkv₃, totalScoreFloat_of_ne [(1 : ℝ), 0] 0
          ⟨[0, 1], some ⟨3/10, 0, 0⟩, some 0, []⟩ hdenom]
        rfl
      · exact absurd hkv₄ (List.not_mem_nil _)
  constructor
  · rw [retrieveMemories]
    simp only [List.isEmpty_cons, Bool.false_eq_true, if_false]
    rw [if_pos hguard₂]
    simp only [List.map_cons, List.map_nil, List.insertionSort,
      List.orderedInsert]
    rw [if_neg]
    · rfl
    · show ¬ scoreDescRel _ _
      rw [scoreDescRel]
      simp only
      rw [hsA, hsB]
      norm_num
  · rw [specClaimedScore, specClaimedScore, hsim,
      specClaimedImportance, specClaimedImportance]
    norm_num [abs_of_nonneg]

end LimbicFlow
